import Mathlib

/-!
Verification of the Posts persistence and query service of the
Teacher-ai-academy-website backend (src/backend/src/posts.ts and its routes),
as a shallow embedding in Lean 4.  Strings are modelled as Lean `String`
(lists of characters); JavaScript truthiness of optional string fields is
modelled explicitly; the relational store is a list of rows, with the
unique-slug / unique-id constraints of the Prisma schema (the schema file is
not part of the sources, so those constraints follow the spec, section 3)
appearing as hypotheses.  `Date` values are modelled as natural-number
timestamps, and the ambient `new Date()` defaults as an explicit `now`
argument.
-/

/-- Truthiness of an optional JS string: `undefined` and `""` are falsy. -/
def jsTruthy (o : Option String) : Bool :=
  match o with
  | none => false
  | some s => s ≠ ""

/-- Models the JS expression `o || d` for an optional string `o`. -/
def jsOr (o : Option String) (d : String) : String :=
  match o with
  | none => d
  | some s => if s = "" then d else s

/-- Character class of the JS regex `\s` (also the set `String.prototype.trim`
removes): space, tab, line feed, vertical tab, form feed, carriage return,
NBSP and the Unicode space separators, line/paragraph separators and BOM. -/
def isJsWhitespace (c : Char) : Bool :=
  c.toNat = 0x20 || c.toNat = 0x9 || c.toNat = 0xA || c.toNat = 0xB ||
  c.toNat = 0xC || c.toNat = 0xD || c.toNat = 0xA0 || c.toNat = 0x1680 ||
  (0x2000 ≤ c.toNat && c.toNat ≤ 0x200A) || c.toNat = 0x2028 ||
  c.toNat = 0x2029 || c.toNat = 0x202F || c.toNat = 0x205F ||
  c.toNat = 0x3000 || c.toNat = 0xFEFF

/-- Characters kept by `.replace(/[^a-z0-9\s-]/g, '')`: lowercase ASCII
letters, ASCII digits, `\s` characters and hyphens. -/
def isSlugKeep (c : Char) : Bool :=
  ('a' ≤ c && c ≤ 'z') || ('0' ≤ c && c ≤ '9') || isJsWhitespace c || c = '-'

/-- Models a global regex replace of every maximal run of characters
satisfying `p` by the single character `rep` (`.replace(/X+/g, rep)`).
The boolean flag records whether the previous character was part of a run. -/
def collapseRuns (p : Char → Bool) (rep : Char) : List Char → Bool → List Char
  | [], _ => []
  | c :: cs, inRun =>
    match p c, inRun with
    | true, true => collapseRuns p rep cs true
    | true, false => rep :: collapseRuns p rep cs true
    | false, _ => c :: collapseRuns p rep cs false

/-- Drops the longest suffix of characters satisfying `q` (the right half of
`String.prototype.trim`). -/
def dropTrailing (q : Char → Bool) : List Char → List Char
  | [] => []
  | c :: cs =>
    let rest := dropTrailing q cs
    if rest.isEmpty && q c then [] else c :: rest

/-- Models `String.prototype.trim()`: strips JS whitespace from both ends. -/
def jsTrim (l : List Char) : List Char :=
  dropTrailing isJsWhitespace (l.dropWhile isJsWhitespace)

/-- Embeds `PostsService.generateSlug` (src/backend/src/posts.ts:69-76):
lowercase the title, strip characters outside `[a-z0-9\s-]`, replace runs of
whitespace by single hyphens, collapse runs of hyphens to one hyphen, then
`trim()`.  `toLowerCase()` is modelled by the ASCII `Char.toLower`; every
character this leaves outside ASCII is removed by the following filter. -/
def generateSlug (title : String) : String :=
  String.mk
    (jsTrim
      (collapseRuns (fun c => c = '-') '-'
        (collapseRuns isJsWhitespace '-'
          ((title.data.map Char.toLower).filter isSlugKeep) false) false))

/-- The output alphabet the spec claims for slugs: `[a-z0-9-]`. -/
def isSlugOutputChar (c : Char) : Bool :=
  ('a' ≤ c && c ≤ 'z') || ('0' ≤ c && c ≤ '9') || c = '-'

/-- No two consecutive characters of the list are both hyphens. -/
def noDoubleHyphen : List Char → Bool
  | [] => true
  | [_] => true
  | a :: b :: t => !(a = '-' && b = '-') && noDoubleHyphen (b :: t)

section SlugLemmas

/-- Every character emitted by `collapseRuns` is the replacement character or
a character of the input that does not satisfy `p`. -/
theorem mem_collapseRuns {p : Char → Bool} {rep : Char} :
    ∀ {l : List Char} {b : Bool} {c : Char},
      c ∈ collapseRuns p rep l b → c = rep ∨ (c ∈ l ∧ p c = false) := by
  intro l
  induction l with
  | nil => intro b c h; simp [collapseRuns] at h
  | cons a t ih =>
    intro b c h
    cases hp : p a with
    | false =>
      have h' : c = a ∨ c ∈ collapseRuns p rep t false := by
        cases b <;> simpa [collapseRuns, hp] using h
      rcases h' with h' | h'
      · exact Or.inr ⟨by simp [h'], by simp [h', hp]⟩
      · rcases ih h' with h1 | h2
        · exact Or.inl h1
        · exact Or.inr ⟨List.mem_cons_of_mem _ h2.1, h2.2⟩
    | true =>
      cases b with
      | true =>
        have h' : c ∈ collapseRuns p rep t true := by
          simpa [collapseRuns, hp] using h
        rcases ih h' with h1 | h2
        · exact Or.inl h1
        · exact Or.inr ⟨List.mem_cons_of_mem _ h2.1, h2.2⟩
      | false =>
        have h' : c = rep ∨ c ∈ collapseRuns p rep t true := by
          simpa [collapseRuns, hp] using h
        rcases h' with h' | h'
        · exact Or.inl h'
        · rcases ih h' with h1 | h2
          · exact Or.inl h1
          · exact Or.inr ⟨List.mem_cons_of_mem _ h2.1, h2.2⟩

/-- Membership in `dropTrailing` output implies membership in the input. -/
theorem mem_dropTrailing {q : Char → Bool} :
    ∀ {l : List Char} {c : Char}, c ∈ dropTrailing q l → c ∈ l := by
  intro l
  induction l with
  | nil => intro c h; simp [dropTrailing] at h
  | cons a t ih =>
    intro c h
    simp only [dropTrailing] at h
    split at h
    · simp at h
    · simp only [List.mem_cons] at h
      rcases h with h | h
      · exact h ▸ List.mem_cons_self a t
      · exact List.mem_cons_of_mem _ (ih h)

/-- Helper: a cons keeps `noDoubleHyphen` when the tail does and the new head
does not form a hyphen pair with the tail's head. -/
theorem noDoubleHyphen_cons {c : Char} {X : List Char}
    (h1 : noDoubleHyphen X = true)
    (h2 : c = '-' → X.head? ≠ some '-') : noDoubleHyphen (c :: X) = true := by
  cases X with
  | nil => rfl
  | cons x xs =>
    simp only [noDoubleHyphen, Bool.and_eq_true, Bool.not_eq_true']
    refine ⟨?_, h1⟩
    by_cases hc : c = '-'
    · have hx : x ≠ '-' := by
        intro hx
        exact h2 hc (by simp [hx])
      simp [hc, hx]
    · simp [hc]

/-- The tail of a `noDoubleHyphen` list again satisfies it. -/
theorem noDoubleHyphen_tail {a : Char} {t : List Char}
    (h : noDoubleHyphen (a :: t) = true) : noDoubleHyphen t = true := by
  cases t with
  | nil => rfl
  | cons x xs =>
    simp only [noDoubleHyphen, Bool.and_eq_true] at h
    exact h.2

/-- When the hyphen-collapsing pass starts inside a run, its output does not
begin with a hyphen. -/
theorem collapseRuns_hyphen_head :
    ∀ l : List Char,
      (collapseRuns (fun c => c = '-') '-' l true).head? ≠ some '-' := by
  intro l
  induction l with
  | nil => simp [collapseRuns]
  | cons a t ih =>
    by_cases hp : a = '-'
    · simpa [collapseRuns, hp] using ih
    · simp [collapseRuns, hp]

/-- The hyphen-collapsing pass never emits two consecutive hyphens. -/
theorem noDoubleHyphen_collapseRuns :
    ∀ (l : List Char) (b : Bool),
      noDoubleHyphen (collapseRuns (fun c => c = '-') '-' l b) = true := by
  intro l
  induction l with
  | nil => intro b; rfl
  | cons a t ih =>
    intro b
    by_cases hp : a = '-'
    · cases b with
      | true => simpa [collapseRuns, hp] using ih true
      | false =>
        have hout : collapseRuns (fun c => c = '-') '-' (a :: t) false =
            '-' :: collapseRuns (fun c => c = '-') '-' t true := by
          simp [collapseRuns, hp]
        rw [hout]
        exact noDoubleHyphen_cons (ih true) (fun _ => collapseRuns_hyphen_head t)
    · have hout : collapseRuns (fun c => c = '-') '-' (a :: t) b =
          a :: collapseRuns (fun c => c = '-') '-' t false := by
        cases b <;> simp [collapseRuns, hp]
      rw [hout]
      exact noDoubleHyphen_cons (ih false) (fun hc => absurd hc hp)

/-- `noDoubleHyphen` survives dropping a prefix. -/
theorem noDoubleHyphen_dropWhile {q : Char → Bool} :
    ∀ {l : List Char}, noDoubleHyphen l = true →
      noDoubleHyphen (l.dropWhile q) = true := by
  intro l
  induction l with
  | nil => intro h; exact h
  | cons a t ih =>
    intro h
    by_cases hq : q a
    · simpa [List.dropWhile, hq] using ih (noDoubleHyphen_tail h)
    · simpa [List.dropWhile, hq] using h

/-- `dropTrailing` returns either the empty list or the input's head followed
by `dropTrailing` of the tail. -/
theorem dropTrailing_shape (q : Char → Bool) (y : Char) (ts : List Char) :
    dropTrailing q (y :: ts) = [] ∨
    dropTrailing q (y :: ts) = y :: dropTrailing q ts := by
  by_cases h : (dropTrailing q ts).isEmpty && q y
  · exact Or.inl (by simp [dropTrailing, h])
  · exact Or.inr (by simp [dropTrailing, h])

/-- `noDoubleHyphen` survives dropping a suffix. -/
theorem noDoubleHyphen_dropTrailing {q : Char → Bool} :
    ∀ {l : List Char}, noDoubleHyphen l = true →
      noDoubleHyphen (dropTrailing q l) = true := by
  intro l
  induction l with
  | nil => intro h; exact h
  | cons a t ih =>
    intro h
    rcases dropTrailing_shape q a t with hs | hs
    · rw [hs]; rfl
    · rw [hs]
      refine noDoubleHyphen_cons (ih (noDoubleHyphen_tail h)) ?_
      intro ha hhead
      cases t with
      | nil => simp [dropTrailing] at hhead
      | cons y ys =>
        have hy : (dropTrailing q (y :: ys)).head? = some y ∨
            (dropTrailing q (y :: ys)).head? = none := by
          rcases dropTrailing_shape q y ys with h2 | h2 <;> simp [h2]
        have hy' : y = '-' := by
          rcases hy with h2 | h2
          · rw [h2] at hhead; exact Option.some_inj.mp hhead
          · rw [h2] at hhead; cases hhead
        simp only [noDoubleHyphen, Bool.and_eq_true, Bool.not_eq_true'] at h
        have := h.1
        simp [ha, hy'] at this

/-- Every character of a generated slug is a lowercase letter, a digit, or a
hyphen. -/
theorem generateSlug_charset (title : String) :
    ∀ c ∈ (generateSlug title).data, isSlugOutputChar c = true := by
  intro c hc
  simp only [generateSlug, jsTrim] at hc
  have hc1 := (List.dropWhile_sublist _).mem (mem_dropTrailing hc)
  rcases mem_collapseRuns hc1 with h | ⟨h2, hph⟩
  · simp [isSlugOutputChar, h]
  rcases mem_collapseRuns h2 with h | ⟨h3, hws⟩
  · simp [isSlugOutputChar, h]
  have hkeep : isSlugKeep c = true := List.of_mem_filter h3
  simp only [isSlugKeep, Bool.or_eq_true, decide_eq_true_eq,
    Bool.and_eq_true] at hkeep
  simp only [isSlugOutputChar, Bool.or_eq_true, decide_eq_true_eq,
    Bool.and_eq_true]
  simp only [hws] at hkeep
  tauto

end SlugLemmas

/-!
JSON values and the `JSON.stringify` / `JSON.parse` pair, used by
`PostsService.stringifyTags` and `PostsService.parseTags`
(src/backend/src/posts.ts:47-58).  A number is kept as its source lexeme,
since `parseTags` never does arithmetic on one.  One approximation is
documented at `escapeUnitChar`.
-/

/-- A parsed JSON value. -/
inductive Json where
  | null : Json
  | bool (b : Bool) : Json
  | num (lexeme : String) : Json
  | str (s : String) : Json
  | arr (elems : List Json) : Json
  | obj (fields : List (String × Json)) : Json

/-- Hexadecimal digit characters emitted by `JSON.stringify` (lowercase):
`48` is the code of `'0'` and `87 + 10` that of `'a'`. -/
def hexDigitOf (n : Nat) : Char :=
  Char.ofNat (if n < 10 then n + 48 else n + 87)

/-- The letter of a two-character escape, for the characters that have one
(quote, backslash, and the five named control characters). -/
def shortEscape (c : Char) : Option Char :=
  if c = '\t' then some 't'
  else if c = '\r' then some 'r'
  else if c = '\n' then some 'n'
  else if c = '\x0c' then some 'f'
  else if c = '\x08' then some 'b'
  else if c = '\\' then some '\\'
  else if c = '"' then some '"'
  else none

/-- How `JSON.stringify` renders one character inside a string literal:
a two-character escape where one exists, `\u00XX` for the remaining
control characters, the character itself otherwise. -/
def escapeChar (c : Char) : List Char :=
  match shortEscape c with
  | some e => ['\\', e]
  | none =>
    if c.toNat < 0x20 then
      '\\' :: 'u' :: '0' :: '0' ::
        hexDigitOf (c.toNat / 16) :: [hexDigitOf (c.toNat % 16)]
    else [c]

/-- The characters of a JSON string literal for `s`, quotes included. -/
def encodeString (s : String) : List Char :=
  '"' :: (s.data.foldr (fun c acc => escapeChar c ++ acc) ['"'])

/-- The `,"…"` continuation of a serialized array after its first element. -/
def encodeTagsSep : List String → List Char
  | [] => []
  | t :: ts => ',' :: (encodeString t ++ encodeTagsSep ts)

/-- Embeds `PostsService.stringifyTags`: `JSON.stringify` of an array of
strings, which prints `[`, the comma-separated string literals with no added
whitespace, and `]`. -/
def stringifyTags (tags : List String) : String :=
  String.mk ('[' ::
    ((match tags with
      | [] => []
      | t :: ts => encodeString t ++ encodeTagsSep ts) ++ [']']))

/-- JSON's insignificant whitespace (the only characters `JSON.parse` skips
between tokens): space, tab, line feed, carriage return. -/
def isJsonWs (c : Char) : Bool :=
  c = ' ' || c = '\t' || c = '\n' || c = '\r'

/-- Skips insignificant whitespace. -/
def skipWs (cs : List Char) : List Char := cs.dropWhile isJsonWs

/-- Value of one hexadecimal digit, by character code: `48`-`57` are the
digits, `97`-`102` the lowercase and `65`-`70` the uppercase letters. -/
def hexVal (c : Char) : Option Nat :=
  let n := c.toNat
  if 48 ≤ n && n ≤ 57 then some (n - 48)
  else if 97 ≤ n && n ≤ 102 then some (n - 87)
  else if 65 ≤ n && n ≤ 70 then some (n - 55)
  else none

/-- Value of a `\uXXXX` escape's four hexadecimal digits. -/
def hex4 (a b c d : Char) : Option Nat :=
  match hexVal a, hexVal b, hexVal c, hexVal d with
  | some x, some y, some z, some w => some (x * 4096 + y * 256 + z * 16 + w)
  | _, _, _, _ => none

/-- The character denoted by a `\uXXXX` escape.  JavaScript strings are
UTF-16 code-unit sequences, so `JSON.parse` combines a high/low surrogate
escape pair into one astral character and keeps lone surrogates; a Lean
`Char` holds a scalar value, so here each escape decodes independently and
a surrogate becomes U+FFFD.  This changes no claim: which inputs parse is
unaffected, and the encoder under verification never emits `\u` escapes
above `\u001f`. -/
def escapeUnitChar (n : Nat) : Char :=
  if 0xD800 ≤ n ∧ n ≤ 0xDFFF then '�' else Char.ofNat n

/-- Parses the body of a JSON string literal after the opening quote, up to
and including the closing quote; returns the decoded characters and the
rest of the input.  Unescaped control characters are a syntax error, as in
`JSON.parse`. -/
def parseStringBody : List Char → Option (List Char × List Char)
  | [] => none
  | c :: rest =>
    if c = '"' then some ([], rest)
    else if c = '\\' then
      match rest with
      | [] => none
      | e :: r =>
        if e = '"' then (parseStringBody r).map (fun p => ('"' :: p.1, p.2))
        else if e = '\\' then (parseStringBody r).map (fun p => ('\\' :: p.1, p.2))
        else if e = '/' then (parseStringBody r).map (fun p => ('/' :: p.1, p.2))
        else if e = 'b' then (parseStringBody r).map (fun p => ('\x08' :: p.1, p.2))
        else if e = 'f' then (parseStringBody r).map (fun p => ('\x0c' :: p.1, p.2))
        else if e = 'n' then (parseStringBody r).map (fun p => ('\n' :: p.1, p.2))
        else if e = 'r' then (parseStringBody r).map (fun p => ('\r' :: p.1, p.2))
        else if e = 't' then (parseStringBody r).map (fun p => ('\t' :: p.1, p.2))
        else if e = 'u' then
          match r with
          | h1 :: h2 :: h3 :: h4 :: r2 =>
            match hex4 h1 h2 h3 h4 with
            | none => none
            | some n => (parseStringBody r2).map (fun p => (escapeUnitChar n :: p.1, p.2))
          | _ => none
        else none
    else if c.toNat < 0x20 then none
    else (parseStringBody rest).map (fun p => (c :: p.1, p.2))

/-- Integer part of a JSON number: `0`, or a nonzero digit followed by
digits (leading zeros are a syntax error). -/
def parseNumberTail (cs : List Char) : Option (List Char × List Char) :=
  match cs with
  | [] => none
  | c :: rest =>
    if c = '0' then some (['0'], rest)
    else if c.isDigit then
      some (c :: rest.takeWhile Char.isDigit, rest.dropWhile Char.isDigit)
    else none

/-- Optional fraction part of a JSON number (`.` must be followed by at
least one digit). -/
def parseFracPart (cs : List Char) : Option (List Char × List Char) :=
  match cs with
  | [] => some ([], [])
  | c :: rest =>
    if c = '.' then
      let ds := rest.takeWhile Char.isDigit
      if ds.isEmpty then none else some ('.' :: ds, rest.dropWhile Char.isDigit)
    else some ([], cs)

/-- Optional exponent part of a JSON number. -/
def parseExpPart (cs : List Char) : Option (List Char × List Char) :=
  match cs with
  | [] => some ([], [])
  | c :: rest =>
    if c = 'e' || c = 'E' then
      match rest with
      | s :: r2 =>
        if s = '+' || s = '-' then
          let ds := r2.takeWhile Char.isDigit
          if ds.isEmpty then none
          else some (c :: s :: ds, r2.dropWhile Char.isDigit)
        else
          let ds := rest.takeWhile Char.isDigit
          if ds.isEmpty then none
          else some (c :: ds, rest.dropWhile Char.isDigit)
      | [] => none
    else some ([], cs)

/-- Lexeme of a JSON number (grammar `-? int frac? exp?`). -/
def parseNumberLex (cs : List Char) : Option (List Char × List Char) :=
  match cs with
  | [] => none
  | c :: _ =>
    let core : List Char → Option (List Char × List Char) := fun l =>
      match parseNumberTail l with
      | none => none
      | some (ip, r1) =>
        match parseFracPart r1 with
        | none => none
        | some (fp, r2) =>
          match parseExpPart r2 with
          | none => none
          | some (ep, r3) => some (ip ++ fp ++ ep, r3)
    if c = '-' then (core cs.tail).map (fun p => ('-' :: p.1, p.2))
    else core cs

/-- Parses the comma-separated elements of a nonempty array, consuming the
closing `]`; `pv` parses one value.  The fuel only bounds recursion depth;
`jsonParse` supplies more than any input can consume. -/
def parseItemsWith (pv : List Char → Option (Json × List Char)) :
    Nat → List Char → Option (List Json × List Char)
  | 0, _ => none
  | fuel+1, cs =>
    match pv cs with
    | none => none
    | some (v, r) =>
      match skipWs r with
      | [] => none
      | x :: r2 =>
        if x = ',' then (parseItemsWith pv fuel (skipWs r2)).map (fun p => (v :: p.1, p.2))
        else if x = ']' then some ([v], r2)
        else none

/-- Parses the members of a nonempty object, consuming the closing `}`. -/
def parseFieldsWith (pv : List Char → Option (Json × List Char)) :
    Nat → List Char → Option (List (String × Json) × List Char)
  | 0, _ => none
  | fuel+1, cs =>
    match cs with
    | [] => none
    | c :: rest =>
      if c = '"' then
        match parseStringBody rest with
        | none => none
        | some (k, r1) =>
          match skipWs r1 with
          | [] => none
          | x :: r2 =>
            if x = ':' then
              match pv (skipWs r2) with
              | none => none
              | some (v, r3) =>
                match skipWs r3 with
                | [] => none
                | y :: r4 =>
                  if y = ',' then (parseFieldsWith pv fuel (skipWs r4)).map
                      (fun p => ((String.mk k, v) :: p.1, p.2))
                  else if y = '}' then some ([(String.mk k, v)], r4)
                  else none
            else none
      else none

/-- Parses one JSON value at the head of the input (no leading whitespace)
and returns it with the unconsumed rest. -/
def parseVal : Nat → List Char → Option (Json × List Char)
  | 0, _ => none
  | fuel+1, cs =>
    match cs with
    | [] => none
    | c :: rest =>
      if c = '"' then
        (parseStringBody rest).map (fun p => (Json.str (String.mk p.1), p.2))
      else if c = '[' then
        match skipWs rest with
        | [] => none
        | x :: r2 =>
          if x = ']' then some (Json.arr [], r2)
          else (parseItemsWith (parseVal fuel) fuel (x :: r2)).map
            (fun p => (Json.arr p.1, p.2))
      else if c = '{' then
        match skipWs rest with
        | [] => none
        | x :: r2 =>
          if x = '}' then some (Json.obj [], r2)
          else (parseFieldsWith (parseVal fuel) fuel (x :: r2)).map
            (fun p => (Json.obj p.1, p.2))
      else if c = 'n' then
        match cs with
        | 'n' :: 'u' :: 'l' :: 'l' :: r => some (Json.null, r)
        | _ => none
      else if c = 't' then
        match cs with
        | 't' :: 'r' :: 'u' :: 'e' :: r => some (Json.bool true, r)
        | _ => none
      else if c = 'f' then
        match cs with
        | 'f' :: 'a' :: 'l' :: 's' :: 'e' :: r => some (Json.bool false, r)
        | _ => none
      else
        (parseNumberLex cs).map (fun p => (Json.num (String.mk p.1), p.2))

/-- Models `JSON.parse`: skip surrounding whitespace, parse exactly one
value, require the rest to be empty; `none` is a `SyntaxError`.  The fuel
`2·len + 2` exceeds what any parse can use, since every two fuel steps
follow at least one consumed character. -/
def jsonParse (s : String) : Option Json :=
  let cs := skipWs s.data
  match parseVal (2 * cs.length + 2) cs with
  | some (v, r) => if (skipWs r).isEmpty then some v else none
  | none => none

/-- Embeds `PostsService.parseTags`: `JSON.parse` of the stored string, with
any exception caught and turned into the empty array.  The TypeScript
annotation `string[]` is not checked at runtime, so the result is whatever
JSON value was stored, here kept as `Json`. -/
def parseTags (tagsJson : String) : Json :=
  match jsonParse tagsJson with
  | some v => v
  | none => Json.arr []

section JsonRoundTrip

/-- The string-literal encoder with an explicit continuation, for induction:
`encodeString s = '"' :: encBody s.data ['"']`. -/
def encBody (s : List Char) (tail : List Char) : List Char :=
  s.foldr (fun c acc => escapeChar c ++ acc) tail

/-- Appending after an encoded body moves into the continuation. -/
theorem encBody_append (s : List Char) (t r : List Char) :
    encBody s t ++ r = encBody s (t ++ r) := by
  induction s with
  | nil => rfl
  | cons c s ih => simp [encBody, List.append_assoc] at ih ⊢; rw [ih]

/-- An encoded string literal followed by anything, in head-exposed form. -/
theorem encodeString_append (t : String) (rest : List Char) :
    encodeString t ++ rest = '"' :: encBody t.data ('"' :: rest) := by
  show ('"' :: encBody t.data ['"']) ++ rest = _
  simp [encBody_append]

/-- `skipWs` does not move past a non-whitespace head. -/
theorem skipWs_not_ws {x : Char} {xs : List Char} (h : isJsonWs x = false) :
    skipWs (x :: xs) = x :: xs := by
  simp [skipWs, List.dropWhile, h]

/-- Hexadecimal digits decode back to their value. -/
theorem hexVal_hexDigitOf : ∀ k : Nat, k < 16 → hexVal (hexDigitOf k) = some k := by
  decide

/-- A `\u00XX` escape's digits decode back to the escaped code point. -/
theorem hex4_low (v : Nat) (hv : v < 32) :
    hex4 '0' '0' (hexDigitOf (v / 16)) (hexDigitOf (v % 16)) = some v := by
  have h1 : hexVal '0' = some 0 := by decide
  have h2 : hexVal (hexDigitOf (v / 16)) = some (v / 16) :=
    hexVal_hexDigitOf _ (by omega)
  have h3 : hexVal (hexDigitOf (v % 16)) = some (v % 16) :=
    hexVal_hexDigitOf _ (by omega)
  simp [hex4, h1, h2, h3]
  omega

/-- Decoding the code point of a control character gives it back. -/
theorem escapeUnitChar_toNat (c : Char) (h : c.toNat < 0x20) :
    escapeUnitChar c.toNat = c := by
  rw [escapeUnitChar, if_neg (by omega)]
  exact Char.ofNat_toNat c

/-- Round trip of a string-literal body: parsing what `escapeChar` emitted,
up to the closing quote, recovers exactly the original characters. -/
theorem parseStringBody_encBody (s : List Char) (rest : List Char) :
    parseStringBody (encBody s ('"' :: rest)) = some (s, rest) := by
  induction s with
  | nil =>
    show parseStringBody ('"' :: rest) = some ([], rest)
    rw [parseStringBody.eq_def]; simp
  | cons c s ih =>
    have hstep : encBody (c :: s) ('"' :: rest) =
        escapeChar c ++ encBody s ('"' :: rest) := rfl
    rw [hstep]
    by_cases h1 : c = '"'
    · subst h1
      rw [show escapeChar '"' = ['\\', '"'] from rfl]
      rw [List.cons_append, List.cons_append, List.nil_append]
      rw [parseStringBody.eq_def]; simp [ih]
    by_cases h2 : c = '\\'
    · subst h2
      rw [show escapeChar '\\' = ['\\', '\\'] from rfl]
      rw [List.cons_append, List.cons_append, List.nil_append]
      rw [parseStringBody.eq_def]; simp [ih]
    by_cases h3 : c = '\x08'
    · subst h3
      rw [show escapeChar '\x08' = ['\\', 'b'] from rfl]
      rw [List.cons_append, List.cons_append, List.nil_append]
      rw [parseStringBody.eq_def]; simp [ih]
    by_cases h4 : c = '\x0c'
    · subst h4
      rw [show escapeChar '\x0c' = ['\\', 'f'] from rfl]
      rw [List.cons_append, List.cons_append, List.nil_append]
      rw [parseStringBody.eq_def]; simp [ih]
    by_cases h5 : c = '\n'
    · subst h5
      rw [show escapeChar '\n' = ['\\', 'n'] from rfl]
      rw [List.cons_append, List.cons_append, List.nil_append]
      rw [parseStringBody.eq_def]; simp [ih]
    by_cases h6 : c = '\r'
    · subst h6
      rw [show escapeChar '\r' = ['\\', 'r'] from rfl]
      rw [List.cons_append, List.cons_append, List.nil_append]
      rw [parseStringBody.eq_def]; simp [ih]
    by_cases h7 : c = '\t'
    · subst h7
      rw [show escapeChar '\t' = ['\\', 't'] from rfl]
      rw [List.cons_append, List.cons_append, List.nil_append]
      rw [parseStringBody.eq_def]; simp [ih]
    have hse : shortEscape c = none := by
      simp [shortEscape, h1, h2, h3, h4, h5, h6, h7]
    by_cases h8 : c.toNat < 0x20
    · have henc : escapeChar c =
          '\\' :: 'u' :: '0' :: '0' ::
            hexDigitOf (c.toNat / 16) :: [hexDigitOf (c.toNat % 16)] := by
        simp [escapeChar, hse, h8]
      rw [henc]
      simp only [List.cons_append, List.nil_append]
      rw [parseStringBody.eq_def]
      simp [hex4_low c.toNat h8, escapeUnitChar_toNat c h8, ih]
    · have henc : escapeChar c = [c] := by
        simp [escapeChar, hse, h8]
      rw [henc]
      simp only [List.cons_append, List.nil_append]
      rw [parseStringBody.eq_def]
      simp [h1, h2, h8, ih]

/-- A value parse at an encoded string literal returns that string. -/
theorem parseVal_encodeString (f : Nat) (t : String) (rest : List Char) :
    parseVal (f + 1) (encodeString t ++ rest) = some (Json.str t, rest) := by
  rw [encodeString_append]
  rw [parseVal.eq_def]
  simp [parseStringBody_encBody]

/-- Parsing the encoded elements of a nonempty tag array, with any fuel
beyond the element count, returns the corresponding string values. -/
theorem parseItemsWith_encode (F : Nat) :
    ∀ (ts : List String) (t : String) (g : Nat) (rest : List Char),
      parseItemsWith (parseVal (F + 1)) (ts.length + g + 1)
        (encodeString t ++ (encodeTagsSep ts ++ (']' :: rest)))
      = some ((t :: ts).map Json.str, rest) := by
  intro ts
  induction ts with
  | nil =>
    intro t g rest
    simp only [List.length_nil, Nat.zero_add, encodeTagsSep, List.nil_append]
    rw [parseItemsWith.eq_def]
    simp [parseVal_encodeString, skipWs_not_ws (by decide : isJsonWs ']' = false)]
  | cons t2 ts2 ih =>
    intro t g rest
    have hfuel : (t2 :: ts2).length + g + 1 = (ts2.length + (g + 1)) + 1 := by
      simp [List.length_cons]; omega
    rw [hfuel]
    have hshape : encodeTagsSep (t2 :: ts2) ++ (']' :: rest) =
        ',' :: (encodeString t2 ++ (encodeTagsSep ts2 ++ (']' :: rest))) := by
      simp [encodeTagsSep, List.append_assoc]
    rw [parseItemsWith.eq_def]
    simp only [hshape, parseVal_encodeString]
    rw [skipWs_not_ws (by decide : isJsonWs ',' = false)]
    simp only [if_pos rfl, reduceIte]
    have hquote : skipWs (encodeString t2 ++ (encodeTagsSep ts2 ++ (']' :: rest))) =
        encodeString t2 ++ (encodeTagsSep ts2 ++ (']' :: rest)) := by
      rw [encodeString_append]
      exact skipWs_not_ws (by decide)
    rw [hquote]
    rw [show ts2.length + (g + 1) = ts2.length + g + 1 from by omega]
    rw [ih t2 g rest]
    simp

/-- The serialized tag list is at least as long as the tag count (each
element contributes its comma and quotes). -/
theorem encodeTagsSep_length (ts : List String) :
    ts.length ≤ (encodeTagsSep ts).length := by
  induction ts with
  | nil => simp [encodeTagsSep]
  | cons t ts ih => simp [encodeTagsSep]; omega

/-- Round trip of the tag serialization: `JSON.parse` of the string
`JSON.stringify` produced from a list of tags yields exactly that array of
strings. -/
theorem jsonParse_stringifyTags (l : List String) :
    jsonParse (stringifyTags l) = some (Json.arr (l.map Json.str)) := by
  cases l with
  | nil => rfl
  | cons t ts =>
    have hdata : (stringifyTags (t :: ts)).data =
        '[' :: (encodeString t ++ (encodeTagsSep ts ++ (']' :: []))) := by
      simp [stringifyTags, List.append_assoc]
    rw [jsonParse]
    simp only [hdata]
    rw [skipWs_not_ws (by decide : isJsonWs '[' = false)]
    have hlen : ∃ g, 2 * ('[' :: (encodeString t ++ (encodeTagsSep ts ++ (']' :: [])))).length + 2
        = (ts.length + g + 1) + 1 := by
      refine ⟨2 * ('[' :: (encodeString t ++ (encodeTagsSep ts ++ (']' :: [])))).length - ts.length, ?_⟩
      have h1 := encodeTagsSep_length ts
      simp only [List.length_cons, List.length_append]
      omega
    obtain ⟨g, hg⟩ := hlen
    rw [hg]
    have hquote : skipWs (encodeString t ++ (encodeTagsSep ts ++ (']' :: []))) =
        encodeString t ++ (encodeTagsSep ts ++ (']' :: [])) := by
      rw [encodeString_append]
      exact skipWs_not_ws (by decide)
    have harr : encodeString t ++ (encodeTagsSep ts ++ (']' :: [])) =
        '"' :: encBody t.data ('"' :: (encodeTagsSep ts ++ (']' :: []))) := by
      rw [encodeString_append]
    have hstep : parseVal ((ts.length + g + 1) + 1)
        ('[' :: (encodeString t ++ (encodeTagsSep ts ++ (']' :: [])))) =
        (parseItemsWith (parseVal (ts.length + g + 1)) (ts.length + g + 1)
          (encodeString t ++ (encodeTagsSep ts ++ (']' :: [])))).map
          (fun p => (Json.arr p.1, p.2)) := by
      rw [parseVal.eq_def]
      simp only [hquote]
      rw [harr]
      simp
    rw [hstep]
    rw [parseItemsWith_encode (ts.length + g) ts t g []]
    simp [skipWs]

/-- `parseTags` of `stringifyTags` recovers the tags, as `Json` strings. -/
theorem parseTags_stringifyTags (l : List String) :
    parseTags (stringifyTags l) = Json.arr (l.map Json.str) := by
  rw [parseTags, jsonParse_stringifyTags]

end JsonRoundTrip

/-!
The Posts store.  A `Post` is one persisted row (spec section 6: `id, title,
slug(unique), summary, contentMarkdown, contentHtml, imageUrl,
tags(serialized array), sourceUrl, author, publishedAt, status, createdAt,
updatedAt`); the store is the list of rows; `Except DbError` stands for a
thrown Prisma error, which the routes translate to HTTP statuses.  The
Prisma schema itself is not among the sources, so the record shape and the
unique `id` / `slug` constraints are modelled from the spec (sections 3 and
6), while every operation below is translated from
`src/backend/src/posts.ts`.
-/

/-- The two-valued visibility state. -/
inductive PostStatus where
  | DRAFT : PostStatus
  | PUBLISHED : PostStatus
deriving DecidableEq, Repr

/-- One persisted row.  `tags` is the raw serialized string. -/
structure Post where
  id : String
  title : String
  slug : String
  summary : Option String
  contentMarkdown : String
  contentHtml : Option String
  imageUrl : Option String
  tags : String
  sourceUrl : Option String
  author : String
  publishedAt : Nat
  status : PostStatus
  createdAt : Nat
  updatedAt : Nat
deriving DecidableEq, Repr

/-- A post as the service returns it, `tags` decoded (`toPostWithTags`).
The TypeScript type says `string[]`, but `parseTags` performs no runtime
check, so the field holds whatever JSON value the column decoded to. -/
structure PostWithTags where
  id : String
  title : String
  slug : String
  summary : Option String
  contentMarkdown : String
  contentHtml : Option String
  imageUrl : Option String
  tags : Json
  sourceUrl : Option String
  author : String
  publishedAt : Nat
  status : PostStatus
  createdAt : Nat
  updatedAt : Nat

/-- Embeds the private helper `toPostWithTags`. -/
def toPostWithTags (p : Post) : PostWithTags :=
  { id := p.id, title := p.title, slug := p.slug, summary := p.summary,
    contentMarkdown := p.contentMarkdown, contentHtml := p.contentHtml,
    imageUrl := p.imageUrl, tags := parseTags p.tags,
    sourceUrl := p.sourceUrl, author := p.author,
    publishedAt := p.publishedAt, status := p.status,
    createdAt := p.createdAt, updatedAt := p.updatedAt }

/-- Errors thrown by the store (Prisma): a unique-constraint violation, or
an update/delete whose record does not exist (P2025). -/
inductive DbError where
  | uniqueConstraint : DbError
  | recordNotFound : DbError
deriving DecidableEq, Repr

/-- The `CreatePostData` input interface; absent optional fields are
`none` (JS `undefined`). -/
structure CreatePostData where
  title : String
  slug : Option String := none
  summary : Option String := none
  contentMarkdown : Option String := none
  contentHtml : Option String := none
  imageUrl : Option String := none
  tags : Option (List String) := none
  sourceUrl : Option String := none
  author : Option String := none
  publishedAt : Option Nat := none
  status : Option PostStatus := none

/-- The `UpdatePostData` input interface: every field optional. -/
structure UpdatePostData where
  title : Option String := none
  slug : Option String := none
  summary : Option String := none
  contentMarkdown : Option String := none
  contentHtml : Option String := none
  imageUrl : Option String := none
  tags : Option (List String) := none
  sourceUrl : Option String := none
  author : Option String := none
  publishedAt : Option Nat := none
  status : Option PostStatus := none

/-- Embeds `processContent` (src/backend/src/posts.ts:79-94) over the two
fields it reads.  `marked` is the markdown renderer, an external collaborator
(spec section 6: a pure `text → text` function), passed explicitly.  Returns
the `(contentMarkdown?, contentHtml?)` of the result object: markdown is kept
when truthy; HTML is rendered from the markdown when the markdown is truthy
and the given HTML is not; explicitly given truthy HTML wins. -/
def processContent (marked : String → String)
    (contentMarkdown contentHtml : Option String) :
    Option String × Option String :=
  let r1 : Option String × Option String := (none, none)
  let r2 :=
    if jsTruthy contentMarkdown then
      (contentMarkdown,
       if jsTruthy contentHtml then r1.2
       else some (marked (contentMarkdown.getD "")))
    else r1
  if jsTruthy contentHtml then (r2.1, contentHtml) else r2

/-- The slug a create/upsert call uses: `data.slug || generateSlug(data.title)`. -/
def slugOf (data : CreatePostData) : String :=
  jsOr data.slug (generateSlug data.title)

/-- The row a create (or the create arm of an upsert) writes, given the
generated id and the current time. -/
def createRow (marked : String → String) (data : CreatePostData)
    (newId : String) (now : Nat) : Post :=
  let slug := slugOf data
  let content := processContent marked data.contentMarkdown data.contentHtml
  { id := newId,
    title := data.title,
    slug := slug,
    summary := data.summary,
    contentMarkdown := jsOr content.1 "",
    contentHtml := content.2,
    imageUrl := data.imageUrl,
    tags := stringifyTags (data.tags.getD []),
    sourceUrl := data.sourceUrl,
    author := jsOr data.author "Teacher AI Academy",
    publishedAt := data.publishedAt.getD now,
    status := data.status.getD PostStatus.PUBLISHED,
    createdAt := now,
    updatedAt := now }

/-- Embeds `createPost` (src/backend/src/posts.ts:96-117): inserts the row,
after the store's unique-constraint checks on `slug` and `id` (a violation
is the Prisma error the admin route maps to 409). -/
def createPost (marked : String → String) (data : CreatePostData)
    (newId : String) (now : Nat) (store : List Post) :
    Except DbError (PostWithTags × List Post) :=
  let row := createRow marked data newId now
  if store.any (fun r => decide (r.slug = row.slug) || decide (r.id = newId)) then
    .error .uniqueConstraint
  else
    .ok (toPostWithTags row, store ++ [row])

/-- Embeds `updatePost` (src/backend/src/posts.ts:119-141): the update
object is the spread of the supplied fields with `processContent`'s fields
on top (plus re-serialized tags); Prisma applies only the present fields to
the row found by `id`, throwing P2025 when there is none, and enforces the
unique `slug` constraint. -/
def updatePost (marked : String → String) (id : String)
    (data : UpdatePostData) (now : Nat) (store : List Post) :
    Except DbError (PostWithTags × List Post) :=
  match store.find? (fun r => decide (r.id = id)) with
  | none => .error .recordNotFound
  | some r0 =>
    let content := processContent marked data.contentMarkdown data.contentHtml
    let mdField : Option String :=
      match content.1 with
      | some m => some m
      | none => data.contentMarkdown
    let htmlField : Option String :=
      match content.2 with
      | some h => some h
      | none => data.contentHtml
    let upd : Post → Post := fun r =>
      { r with
        title := data.title.getD r.title,
        slug := data.slug.getD r.slug,
        summary := match data.summary with
          | some s => some s
          | none => r.summary,
        contentMarkdown := mdField.getD r.contentMarkdown,
        contentHtml := match htmlField with
          | some h => some h
          | none => r.contentHtml,
        imageUrl := match data.imageUrl with
          | some u => some u
          | none => r.imageUrl,
        tags := match data.tags with
          | some ts => stringifyTags ts
          | none => r.tags,
        sourceUrl := match data.sourceUrl with
          | some u => some u
          | none => r.sourceUrl,
        author := data.author.getD r.author,
        publishedAt := data.publishedAt.getD r.publishedAt,
        status := data.status.getD r.status,
        updatedAt := now }
    let newSlug := data.slug.getD r0.slug
    if store.any (fun r => decide (r.id ≠ id) && decide (r.slug = newSlug)) then
      .error .uniqueConstraint
    else
      .ok (toPostWithTags (upd r0),
           store.map (fun r => if r.id = id then upd r else r))

/-- Embeds `deletePost` (src/backend/src/posts.ts:143-147): Prisma's delete
by primary key, throwing P2025 when the row does not exist. -/
def deletePost (id : String) (store : List Post) :
    Except DbError (List Post) :=
  match store.find? (fun r => decide (r.id = id)) with
  | none => .error .recordNotFound
  | some _ => .ok (store.filter (fun r => decide (r.id ≠ id)))

/-- Embeds `getPostById` (src/backend/src/posts.ts:149-155). -/
def getPostById (id : String) (store : List Post) : Option PostWithTags :=
  (store.find? (fun r => decide (r.id = id))).map toPostWithTags

/-- Embeds `getPostBySlug` (src/backend/src/posts.ts:157-163). -/
def getPostBySlug (slug : String) (store : List Post) : Option PostWithTags :=
  (store.find? (fun r => decide (r.slug = slug))).map toPostWithTags

/-- The `orderBy` column of a listing. -/
inductive OrderField where
  | publishedAt : OrderField
  | updatedAt : OrderField
  | title : OrderField
deriving DecidableEq, Repr

/-- The sort direction of a listing. -/
inductive SortOrder where
  | asc : SortOrder
  | desc : SortOrder
deriving DecidableEq, Repr

/-- The comparison the store's ordered scan uses. -/
def postLeB (ob : OrderField) (ord : SortOrder) (a b : Post) : Bool :=
  match ob, ord with
  | .publishedAt, .asc => decide (a.publishedAt ≤ b.publishedAt)
  | .publishedAt, .desc => decide (b.publishedAt ≤ a.publishedAt)
  | .updatedAt, .asc => decide (a.updatedAt ≤ b.updatedAt)
  | .updatedAt, .desc => decide (b.updatedAt ≤ a.updatedAt)
  | .title, .asc => decide (a.title ≤ b.title)
  | .title, .desc => decide (b.title ≤ a.title)

/-- The comparison as a decidable relation, for sorting. -/
def postLe (ob : OrderField) (ord : SortOrder) (a b : Post) : Prop :=
  postLeB ob ord a b = true

instance (ob : OrderField) (ord : SortOrder) : DecidableRel (postLe ob ord) :=
  fun a b => inferInstanceAs (Decidable (postLeB ob ord a b = true))

/-- The options of `getPosts`, with the source's destructuring defaults. -/
structure GetPostsOptions where
  status : Option PostStatus := none
  page : Nat := 1
  limit : Nat := 10
  orderBy : OrderField := OrderField.publishedAt
  order : SortOrder := SortOrder.desc

/-- The `{items, page, total, hasMore}` result of a listing. -/
structure PaginatedPosts where
  items : List PostWithTags
  page : Nat
  total : Nat
  hasMore : Bool

/-- Embeds `getPosts` (src/backend/src/posts.ts:165-201): resolve `status`
to PUBLISHED when absent, clamp the limit with `Math.min(limit, 50)`,
`skip = (page-1)*maxLimit`, run the filtered ordered scan with skip/take
(the scan modelled as a sort of the matching rows) alongside the filtered
count, and report `hasMore = skip + maxLimit < total`. -/
def getPosts (o : GetPostsOptions) (store : List Post) : PaginatedPosts :=
  let status := o.status.getD PostStatus.PUBLISHED
  let maxLimit := min o.limit 50
  let skip := (o.page - 1) * maxLimit
  let matched := store.filter (fun r => decide (r.status = status))
  let sorted := List.insertionSort (postLe o.orderBy o.order) matched
  { items := ((sorted.drop skip).take maxLimit).map toPostWithTags,
    page := o.page,
    total := matched.length,
    hasMore := decide (skip + maxLimit < matched.length) }

/-- Embeds `getPublishedPostsForRSS` (src/backend/src/posts.ts:203-211):
the PUBLISHED rows, newest first, `take: limit` with no clamp. -/
def getPublishedPostsForRSS (limit : Nat) (store : List Post) :
    List PostWithTags :=
  ((List.insertionSort (postLe OrderField.publishedAt SortOrder.desc)
      (store.filter (fun r => decide (r.status = PostStatus.PUBLISHED)))).take
    limit).map toPostWithTags

/-- Embeds `upsertPostBySlug` (src/backend/src/posts.ts:213-247): Prisma
upsert keyed by the computed slug; the update arm overwrites the mutable
fields (fields passed as `undefined` — `summary`, `contentHtml`, `imageUrl`,
`sourceUrl` when absent — are left unchanged by Prisma), the create arm
writes the same row `createPost` would.  `upsertUpd` is the update arm's
field overwrite for one row. -/
def upsertUpd (marked : String → String) (data : CreatePostData)
    (now : Nat) (r : Post) : Post :=
  let content := processContent marked data.contentMarkdown data.contentHtml
  { r with
    title := data.title,
    summary := match data.summary with
      | some s => some s
      | none => r.summary,
    contentMarkdown := jsOr content.1 "",
    contentHtml := match content.2 with
      | some h => some h
      | none => r.contentHtml,
    imageUrl := match data.imageUrl with
      | some u => some u
      | none => r.imageUrl,
    tags := stringifyTags (data.tags.getD []),
    sourceUrl := match data.sourceUrl with
      | some u => some u
      | none => r.sourceUrl,
    author := jsOr data.author "Teacher AI Academy",
    publishedAt := data.publishedAt.getD now,
    status := data.status.getD PostStatus.PUBLISHED,
    updatedAt := now }

/-- See the doc comment above `upsertUpd`: the update arm it applies. -/
def upsertPostBySlug (marked : String → String) (data : CreatePostData)
    (newId : String) (now : Nat) (store : List Post) :
    PostWithTags × List Post :=
  let slug := slugOf data
  match store.find? (fun r => decide (r.slug = slug)) with
  | some r0 =>
    (toPostWithTags (upsertUpd marked data now r0),
     store.map (fun r => if r.slug = slug then upsertUpd marked data now r else r))
  | none =>
    let row := createRow marked data newId now
    (toPostWithTags row, store ++ [row])

/-!
The route layer (what each claim calls "public" or "admin" behavior):
the public routes of src/unnamed/part_001, the RSS route and the admin
routes of src/backend/src/routes/posts.ts.
-/

/-- The public listing route: forces `status: "PUBLISHED"` and clamps the
requested limit with `Math.min(limit, 50)` before calling `getPosts`. -/
def publicListPosts (page limitReq : Nat) (ob : OrderField)
    (ord : SortOrder) (store : List Post) : PaginatedPosts :=
  getPosts { status := some PostStatus.PUBLISHED, page := page,
             limit := min limitReq 50, orderBy := ob, order := ord } store

/-- The public get-by-slug route: a missing post and a non-PUBLISHED post
are both a 404 (`none`). -/
def publicGetPostBySlug (slug : String) (store : List Post) :
    Option PostWithTags :=
  match getPostBySlug slug store with
  | none => none
  | some p => if p.status = PostStatus.PUBLISHED then some p else none

/-- The RSS route's feed items: the requested limit (default 50 at the
caller) is clamped with `Math.min(limit, 100)`, then passed to
`getPublishedPostsForRSS`. -/
def rssRouteItems (limitReq : Nat) (store : List Post) : List PostWithTags :=
  getPublishedPostsForRSS (min limitReq 100) store

/-- The admin update route's observable outcome: HTTP status and resulting
store ("Record to update not found" maps to 404, "Unique constraint" to
409; an error leaves the store as it was). -/
def adminUpdateRoute (marked : String → String) (id : String)
    (data : UpdatePostData) (now : Nat) (store : List Post) :
    Nat × List Post :=
  match updatePost marked id data now store with
  | .ok (_, s2) => (200, s2)
  | .error .recordNotFound => (404, store)
  | .error .uniqueConstraint => (409, store)

/-- The admin delete route's observable outcome ("Record to delete does not
exist" maps to 404, anything else to 500). -/
def adminDeleteRoute (id : String) (store : List Post) : Nat × List Post :=
  match deletePost id store with
  | .ok s2 => (200, s2)
  | .error .recordNotFound => (404, store)
  | .error _ => (500, store)

/-- C1 (corrected part): `generateSlug` is a pure function of the title, its
result uses only the alphabet `[a-z0-9-]`, and it never contains two
consecutive hyphens.  (The original claim also forbade leading and trailing
hyphens; that part is refuted by `c1_generateSlug_counterexample`.) -/
theorem c1_generateSlug_amended (title : String) :
    (generateSlug title).data.all isSlugOutputChar = true ∧
    noDoubleHyphen (generateSlug title).data = true := by
  constructor
  · exact List.all_eq_true.mpr (generateSlug_charset title)
  · simp only [generateSlug]
    exact noDoubleHyphen_dropTrailing
      (noDoubleHyphen_dropWhile (noDoubleHyphen_collapseRuns _ false))

/-- C1 (counterexample): the final `.trim()` of `generateSlug` removes
whitespace, not hyphens, and no whitespace can survive the earlier
`\s+ -> "-"` replacement, so hyphens produced from leading or trailing
whitespace (or literal hyphens) of the title remain at the ends: the titles
`" hi"` and `"hi "` give slugs with a leading and a trailing hyphen, which
refutes the claim that the result has no leading and no trailing hyphen. -/
theorem c1_generateSlug_counterexample :
    generateSlug " hi" = "-hi" ∧
    (generateSlug " hi").data.head? = some '-' ∧
    generateSlug "hi " = "hi-" ∧
    (generateSlug "hi ").data.getLast? = some '-' := by
  refine ⟨by decide, by decide, by decide, by decide⟩

/-!
Concrete material: a minimal published/draft row and the stores the spec's
worked examples and the counterexamples use.
-/

/-- A minimal row with the given status and `publishedAt` timestamp. -/
def samplePost (s : PostStatus) (t : Nat) : Post :=
  { id := toString t, title := "T", slug := "s" ++ toString t, summary := none,
    contentMarkdown := "", contentHtml := none, imageUrl := none,
    tags := "[]", sourceUrl := none, author := "A", publishedAt := t,
    status := s, createdAt := 0, updatedAt := 0 }

/-- The spec's worked example: 25 PUBLISHED plus 5 DRAFT posts. -/
def sampleStore30 : List Post :=
  ((List.range 25).map (fun i => samplePost PostStatus.PUBLISHED i)) ++
  ((List.range 5).map (fun i => samplePost PostStatus.DRAFT (100 + i)))

/-- A store of 51 PUBLISHED posts, enough to cross the 50-item cap. -/
def sampleStore51 : List Post :=
  (List.range 51).map (fun i => samplePost PostStatus.PUBLISHED i)

/-- Every item a listing returns carries the status the listing filtered
by (the resolved `status`, PUBLISHED when the filter omitted it). -/
theorem status_of_mem_getPosts {o : GetPostsOptions} {store : List Post}
    {p : PostWithTags} (hp : p ∈ (getPosts o store).items) :
    p.status = o.status.getD PostStatus.PUBLISHED := by
  simp only [getPosts] at hp
  obtain ⟨r, hr, rfl⟩ := List.mem_map.mp hp
  have hr1 := List.mem_of_mem_drop (List.mem_of_mem_take hr)
  have hr2 := (List.perm_insertionSort _ _).mem_iff.mp hr1
  have hr3 := List.of_mem_filter hr2
  simpa [toPostWithTags] using hr3

/-- Every item in the RSS selection is PUBLISHED. -/
theorem status_of_mem_rss {limit : Nat} {store : List Post}
    {p : PostWithTags} (hp : p ∈ getPublishedPostsForRSS limit store) :
    p.status = PostStatus.PUBLISHED := by
  simp only [getPublishedPostsForRSS] at hp
  obtain ⟨r, hr, rfl⟩ := List.mem_map.mp hp
  have hr1 := List.mem_of_mem_take hr
  have hr2 := (List.perm_insertionSort _ _).mem_iff.mp hr1
  have hr3 := List.of_mem_filter hr2
  simpa [toPostWithTags] using hr3

/-- C3 (amended): `list` computes `offset = (page-1) * min(limit,50)` and
returns `{items, page, total, hasMore}` with `hasMore = offset +
min(limit,50) < total` (the source clamps with `Math.min` only, and uses
the clamped limit on both sides), `total` the count of rows matching the
status filter independent of the pagination window, and
`items.length = min (min limit 50) (total - offset)`; on 25 PUBLISHED plus
5 DRAFT posts, page 1 with limit 10 gives `total = 25`, 10 items and
`hasMore = true`, and page 3 with limit 10 gives 5 items and
`hasMore = false`.  The original `clamp(limit,1,50)` / `offset + limit <
total` formulas are refuted by `c3_getPosts_counterexample`. -/
theorem c3_getPosts_amended :
    (∀ (o : GetPostsOptions) (store : List Post),
      (getPosts o store).page = o.page ∧
      (getPosts o store).total =
        (store.filter (fun r =>
          decide (r.status = o.status.getD PostStatus.PUBLISHED))).length ∧
      (getPosts o store).hasMore =
        decide ((o.page - 1) * min o.limit 50 + min o.limit 50 <
          (getPosts o store).total) ∧
      (getPosts o store).items.length =
        min (min o.limit 50)
          ((getPosts o store).total - (o.page - 1) * min o.limit 50)) ∧
    (getPosts { status := some PostStatus.PUBLISHED, page := 1, limit := 10 }
        sampleStore30).total = 25 ∧
    (getPosts { status := some PostStatus.PUBLISHED, page := 1, limit := 10 }
        sampleStore30).items.length = 10 ∧
    (getPosts { status := some PostStatus.PUBLISHED, page := 1, limit := 10 }
        sampleStore30).hasMore = true ∧
    (getPosts { status := some PostStatus.PUBLISHED, page := 3, limit := 10 }
        sampleStore30).items.length = 5 ∧
    (getPosts { status := some PostStatus.PUBLISHED, page := 3, limit := 10 }
        sampleStore30).hasMore = false := by
  refine ⟨?_, by decide, by decide, by decide, by decide, by decide⟩
  intro o store
  refine ⟨rfl, rfl, rfl, ?_⟩
  simp [getPosts, List.length_take, List.length_drop, List.length_insertionSort]

/-- The spec-side pagination formulas, written from the spec's words: the
offset uses `clamp(limit,1,50)` and `hasMore` compares `offset + limit`
(the unclamped limit) with the total. -/
def specClampLimit (limit : Nat) : Nat := max 1 (min limit 50)

/-- Spec-side `hasMore` (see `specClampLimit`). -/
def specListHasMore (page limit total : Nat) : Bool :=
  decide ((page - 1) * specClampLimit limit + limit < total)

/-- C3 (counterexample): on 51 PUBLISHED rows, `list({page:1, limit:100})`
reports `hasMore = true` (the code compares `0 + 50 < 51` with the clamped
limit), while the claimed formula `offset + limit < total` predicts
`0 + 100 < 51 = false`; so the claimed `hasMore` formula does not match
the code. -/
theorem c3_getPosts_counterexample :
    (getPosts { status := some PostStatus.PUBLISHED, page := 1, limit := 100 }
        sampleStore51).hasMore = true ∧
    specListHasMore 1 100
      (getPosts { status := some PostStatus.PUBLISHED, page := 1, limit := 100 }
        sampleStore51).total = false := by
  exact ⟨by decide, by decide⟩

/-- C4 (amended): the paginated listing fetches at most 50 items whatever
limit is requested; the RSS route clamps the requested item count at 100
(not 50) — the service itself applies no cap, the route computes
`Math.min(requested, 100)` — so the RSS feed returns at most
`min(requested, 100)` items.  That the RSS count is not capped at 50 is
shown by `c4_rss_counterexample`. -/
theorem c4_limit_caps_amended :
    (∀ (o : GetPostsOptions) (store : List Post),
      (getPosts o store).items.length ≤ 50) ∧
    (∀ (limitReq : Nat) (store : List Post),
      (rssRouteItems limitReq store).length ≤ min limitReq 100) := by
  constructor
  · intro o store
    simp only [getPosts, List.length_map]
    calc (((List.insertionSort _ _).drop _).take (min o.limit 50)).length
        ≤ min o.limit 50 := List.length_take_le _ _
      _ ≤ 50 := Nat.min_le_right _ _
  · intro limitReq store
    simp only [rssRouteItems, getPublishedPostsForRSS, List.length_map]
    exact List.length_take_le _ _

/-- C4 (counterexample): with 51 published posts and `?limit=51`, the RSS
route fetches 51 items — more than 50 — because its clamp is
`Math.min(parseInt(limit) || 50, 100)` and the service's `take` is the
unclamped argument; this refutes the claim that limits above 50 are
clamped to 50 in the RSS item count. -/
theorem c4_rss_counterexample :
    (rssRouteItems 51 sampleStore51).length = 51 ∧
    ¬ (rssRouteItems 51 sampleStore51).length ≤ 50 := by
  exact ⟨by decide, by decide⟩

/-- C5 (confirmed): every post any public-facing query returns — the public
paginated listing, the public get-by-slug route, and the RSS feed — has
status PUBLISHED, over every store whatsoever; DRAFT posts never appear. -/
theorem c5_public_only_published
    (page limitReq limitReq2 : Nat) (ob : OrderField) (ord : SortOrder)
    (slug : String) (store : List Post) :
    ((publicListPosts page limitReq ob ord store).items.all
      (fun p => decide (p.status = PostStatus.PUBLISHED)) = true) ∧
    ((publicGetPostBySlug slug store).all
      (fun p => decide (p.status = PostStatus.PUBLISHED)) = true) ∧
    ((rssRouteItems limitReq2 store).all
      (fun p => decide (p.status = PostStatus.PUBLISHED)) = true) := by
  refine ⟨?_, ?_, ?_⟩
  · apply List.all_eq_true.mpr
    intro p hp
    have hp2 : p ∈ (getPosts
        ⟨some PostStatus.PUBLISHED, page, min limitReq 50, ob, ord⟩
        store).items := hp
    simpa using status_of_mem_getPosts hp2
  · cases hq : getPostBySlug slug store with
    | none => simp [publicGetPostBySlug, hq, Option.all]
    | some p =>
      by_cases hs : p.status = PostStatus.PUBLISHED
      · simp [publicGetPostBySlug, hq, hs, Option.all]
      · simp [publicGetPostBySlug, hq, hs, Option.all]
  · apply List.all_eq_true.mpr
    intro p hp
    have hp2 : p ∈ getPublishedPostsForRSS (min limitReq2 100) store := hp
    simpa using status_of_mem_rss hp2

/-- C9 (confirmed): a `list` call whose filter omits `status` behaves as if
`status = PUBLISHED` had been passed (the destructuring default): the result
equals the explicit-PUBLISHED call, its `total` counts only PUBLISHED rows
— so the DRAFT rows are excluded from `total`, accounting exactly for the
difference with the store size — and every returned item is PUBLISHED. -/
theorem c9_status_defaults_to_published
    (page limit : Nat) (ob : OrderField) (ord : SortOrder)
    (store : List Post) :
    getPosts { status := none, page := page, limit := limit,
               orderBy := ob, order := ord } store =
      getPosts { status := some PostStatus.PUBLISHED, page := page,
                 limit := limit, orderBy := ob, order := ord } store ∧
    (getPosts { status := none, page := page, limit := limit,
                orderBy := ob, order := ord } store).total =
      (store.filter (fun r => decide (r.status = PostStatus.PUBLISHED))).length ∧
    (getPosts { status := none, page := page, limit := limit,
                orderBy := ob, order := ord } store).total +
      (store.filter (fun r => decide (r.status = PostStatus.DRAFT))).length =
      store.length ∧
    (getPosts { status := none, page := page, limit := limit,
                orderBy := ob, order := ord } store).items.all
      (fun p => decide (p.status = PostStatus.PUBLISHED)) = true := by
  refine ⟨rfl, rfl, ?_, ?_⟩
  · show (store.filter (fun r => decide (r.status = PostStatus.PUBLISHED))).length +
      (store.filter (fun r => decide (r.status = PostStatus.DRAFT))).length =
      store.length
    induction store with
    | nil => rfl
    | cons r t ih =>
      cases hr : r.status <;>
        simp [List.filter_cons, hr] <;> omega
  · apply List.all_eq_true.mpr
    intro p hp
    have hp2 : p ∈ (getPosts ⟨none, page, limit, ob, ord⟩ store).items := hp
    simpa using status_of_mem_getPosts hp2

/-- C7 (amended): on a successful create, whenever the supplied
`contentMarkdown` is truthy (non-empty) and the supplied `contentHtml` is
not, the stored `contentHtml` is exactly the renderer's output on that
markdown — hence non-empty whenever the renderer's output is; and whenever
the supplied `contentHtml` is truthy (in particular when both fields are
supplied non-empty), the stored `contentHtml` is the supplied one verbatim.
The unconditional original claim fails at empty strings, which JavaScript
treats as absent: see `c7_content_counterexample`. -/
theorem c7_content_amended
    (marked : String → String) (data : CreatePostData) (newId : String)
    (now : Nat) (store : List Post) (p : PostWithTags) (s2 : List Post)
    (h : createPost marked data newId now store = .ok (p, s2)) :
    (jsTruthy data.contentMarkdown = true → jsTruthy data.contentHtml = false →
      p.contentHtml = some (marked (data.contentMarkdown.getD "")) ∧
      (marked (data.contentMarkdown.getD "") ≠ "" → p.contentHtml.getD "" ≠ "")) ∧
    (jsTruthy data.contentHtml = true → p.contentHtml = data.contentHtml) := by
  rw [createPost] at h
  split at h
  · cases h
  · have hp : p = toPostWithTags (createRow marked data newId now) := by
      cases h; rfl
    subst hp
    constructor
    · intro hmd hhtml
      constructor
      · simp [toPostWithTags, createRow, processContent, hmd, hhtml]
      · intro hne
        simpa [toPostWithTags, createRow, processContent, hmd, hhtml] using hne
    · intro hhtml
      simp [toPostWithTags, createRow, processContent, hhtml]

/-- C7 (witness): a create call with `contentMarkdown = "# Hi"` and no
`contentHtml`, under a renderer returning the fixed page fragment. -/
theorem c7_content_amended_witness :
    (toPostWithTags
      (createRow (fun _ => "<p>hi</p>")
        { title := "T", contentMarkdown := some "# Hi" } "id1" 0)).contentHtml =
      some "<p>hi</p>" ∧
    (toPostWithTags
      (createRow (fun _ => "<p>hi</p>")
        { title := "T", contentMarkdown := some "# Hi" } "id1" 0)).contentHtml.getD "" ≠
      "" := by
  have happ := c7_content_amended (fun _ => "<p>hi</p>")
    { title := "T", contentMarkdown := some "# Hi" } "id1" 0 []
    (toPostWithTags (createRow (fun _ => "<p>hi</p>")
      { title := "T", contentMarkdown := some "# Hi" } "id1" 0))
    ([] ++ [createRow (fun _ => "<p>hi</p>")
      { title := "T", contentMarkdown := some "# Hi" } "id1" 0])
    (by rfl)
  have h1 := happ.1 (by rfl) (by rfl)
  exact ⟨h1.1, h1.2 (by decide)⟩

/-- C7 (counterexample): the code decides by JS truthiness, not presence.
Supplying only `contentMarkdown = ""` stores no `contentHtml` at all
(refuting "non-empty contentHtml derived from the markdown"), and supplying
`contentMarkdown = "# Hi"` together with `contentHtml = ""` stores the
rendered markdown rather than the supplied `contentHtml` verbatim. -/
theorem c7_content_counterexample :
    (createRow (fun s => s) { title := "T", contentMarkdown := some "" }
      "id1" 0).contentHtml = none ∧
    (createRow (fun _ => "<p>x</p>")
      { title := "T", contentMarkdown := some "# Hi", contentHtml := some "" }
      "id2" 0).contentHtml = some "<p>x</p>" ∧
    some "<p>x</p>" ≠ some "" := by
  exact ⟨rfl, rfl, by decide⟩

/-- C8 (confirmed): when no stored row has the requested id, `update` fails
with the record-not-found error and `delete` fails with the record-not-found
error; the admin routes map both to HTTP 404 and the store is unchanged. -/
theorem c8_update_delete_notfound
    (marked : String → String) (id : String) (data : UpdatePostData)
    (now : Nat) (store : List Post)
    (h : store.find? (fun r => decide (r.id = id)) = none) :
    updatePost marked id data now store = .error .recordNotFound ∧
    deletePost id store = .error .recordNotFound ∧
    adminUpdateRoute marked id data now store = (404, store) ∧
    adminDeleteRoute id store = (404, store) := by
  have h1 : updatePost marked id data now store = .error .recordNotFound := by
    rw [updatePost, h]
  have h2 : deletePost id store = .error .recordNotFound := by
    rw [deletePost, h]
  exact ⟨h1, h2, by rw [adminUpdateRoute, h1], by rw [adminDeleteRoute, h2]⟩

/-- C8 (witness): the empty store has no row with id `"missing"`. -/
theorem c8_update_delete_notfound_witness :
    ([] : List Post).find? (fun r => decide (r.id = "missing")) = none ∧
    updatePost (fun s => s) "missing" {} 0 [] = .error .recordNotFound ∧
    deletePost "missing" [] = .error .recordNotFound ∧
    adminUpdateRoute (fun s => s) "missing" {} 0 [] = (404, []) ∧
    adminDeleteRoute "missing" [] = (404, []) := by
  have happ := c8_update_delete_notfound (fun s => s) "missing" {} 0 [] rfl
  exact ⟨rfl, happ.1, happ.2.1, happ.2.2.1, happ.2.2.2⟩

/-- C6 (confirmed): tag serialization round-trips — decoding the serialized
form of any sequence of tags returns exactly that sequence, in order, as
JSON strings; any stored value the JSON parser rejects decodes to the empty
array instead of failing; and a successful create followed by `getById`
returns a post whose decoded tags are exactly the input tags. -/
theorem c6_tags_roundtrip :
    (∀ ts : List String,
      parseTags (stringifyTags ts) = Json.arr (ts.map Json.str)) ∧
    (∀ s : String, jsonParse s = none → parseTags s = Json.arr []) ∧
    (∀ (marked : String → String) (data : CreatePostData) (newId : String)
       (now : Nat) (store : List Post) (ts : List String) (p : PostWithTags)
       (s2 : List Post),
       data.tags = some ts →
       createPost marked data newId now store = .ok (p, s2) →
       p.tags = Json.arr (ts.map Json.str) ∧
       ∃ q, getPostById newId s2 = some q ∧
         q.tags = Json.arr (ts.map Json.str)) := by
  refine ⟨parseTags_stringifyTags, ?_, ?_⟩
  · intro s h
    rw [parseTags, h]
  · intro marked data newId now store ts p s2 hts h
    rw [createPost] at h
    split at h
    · cases h
    · next hany =>
      have hp : p = toPostWithTags (createRow marked data newId now) := by
        cases h; rfl
      have hs2 : s2 = store ++ [createRow marked data newId now] := by
        cases h; rfl
      have htags : (toPostWithTags (createRow marked data newId now)).tags =
          Json.arr (ts.map Json.str) := by
        show parseTags (stringifyTags (data.tags.getD [])) = _
        rw [hts]
        exact parseTags_stringifyTags ts
      refine ⟨hp ▸ htags, toPostWithTags (createRow marked data newId now),
        ?_, htags⟩
      rw [hs2, getPostById, List.find?_append]
      have hnone : store.find? (fun r => decide (r.id = newId)) = none := by
        apply List.find?_eq_none.mpr
        intro r hr
        have hall : ∀ x ∈ store,
            ¬x.slug = (createRow marked data newId now).slug ∧
            ¬x.id = newId := by simpa using hany
        simp [(hall r hr).2]
      rw [hnone]
      have hid : (createRow marked data newId now).id = newId := rfl
      simp [List.find?, hid]

/-- C6 (witness): the round trip at `["a", "b"]`, the malformed input
`"not json"`, and a concrete create-then-getById over the empty store. -/
theorem c6_tags_roundtrip_witness :
    parseTags (stringifyTags ["a", "b"]) = Json.arr (["a", "b"].map Json.str) ∧
    jsonParse "not json" = none ∧
    parseTags "not json" = Json.arr [] ∧
    (∃ q, getPostById "id1"
        ([] ++ [createRow (fun s => s)
          { title := "Hello World", tags := some ["a", "b"] } "id1" 7]) = some q ∧
      q.tags = Json.arr (["a", "b"].map Json.str)) := by
  refine ⟨c6_tags_roundtrip.1 ["a", "b"], rfl,
    c6_tags_roundtrip.2.1 "not json" rfl, ?_⟩
  exact (c6_tags_roundtrip.2.2 (fun s => s)
    { title := "Hello World", tags := some ["a", "b"] } "id1" 7 []
    ["a", "b"]
    (toPostWithTags (createRow (fun s => s)
      { title := "Hello World", tags := some ["a", "b"] } "id1" 7))
    ([] ++ [createRow (fun s => s)
      { title := "Hello World", tags := some ["a", "b"] } "id1" 7])
    rfl (by rfl)).2

/-- The upsert's update arm changes no row's slug. -/
theorem upsertUpd_slug (marked : String → String) (data : CreatePostData)
    (now : Nat) (r : Post) : (upsertUpd marked data now r).slug = r.slug := rfl

/-- The upsert's update arm changes no row's id. -/
theorem upsertUpd_id (marked : String → String) (data : CreatePostData)
    (now : Nat) (r : Post) : (upsertUpd marked data now r).id = r.id := rfl

/-- The upsert's update arm changes no row's creation time. -/
theorem upsertUpd_createdAt (marked : String → String) (data : CreatePostData)
    (now : Nat) (r : Post) : (upsertUpd marked data now r).createdAt = r.createdAt := rfl

/-- The conditional rewrite the upsert's update arm applies to the store
leaves the slug predicate unchanged. -/
theorem upsert_comp_slug (marked : String → String) (data : CreatePostData)
    (now : Nat) :
    (fun r : Post => decide (r.slug = slugOf data)) ∘
      (fun r => if r.slug = slugOf data then upsertUpd marked data now r else r) =
    (fun r : Post => decide (r.slug = slugOf data)) := by
  funext r
  by_cases h : r.slug = slugOf data <;>
    simp [h, Function.comp, upsertUpd_slug]

/-- After one upsert, exactly one stored row carries the computed slug
(given the unique-slug invariant beforehand). -/
theorem upsert_countP_slug_one (marked : String → String)
    (data : CreatePostData) (newId : String) (now : Nat) (store : List Post)
    (huniq : store.countP (fun r => decide (r.slug = slugOf data)) ≤ 1) :
    ((upsertPostBySlug marked data newId now store).2).countP
      (fun r => decide (r.slug = slugOf data)) = 1 := by
  cases hfind : store.find? (fun r => decide (r.slug = slugOf data)) with
  | none =>
    have hzero : store.countP (fun r => decide (r.slug = slugOf data)) = 0 :=
      List.countP_eq_zero.mpr (fun a ha => List.find?_eq_none.mp hfind a ha)
    have hrow : (createRow marked data newId now).slug = slugOf data := rfl
    simp [upsertPostBySlug, hfind, List.countP_append, hzero,
      List.countP_cons, hrow]
  | some r0 =>
    have hmem := List.mem_of_find?_eq_some hfind
    have hpr0 := List.find?_some hfind
    have hpos : 0 < store.countP (fun r => decide (r.slug = slugOf data)) :=
      List.countP_pos_iff.mpr ⟨r0, hmem, hpr0⟩
    have hone : store.countP (fun r => decide (r.slug = slugOf data)) = 1 := by
      omega
    simp [upsertPostBySlug, hfind, List.countP_map, upsert_comp_slug, hone]

/-- C2 (confirmed): starting from any store satisfying the unique-slug
invariant, two `upsertPostBySlug` calls with the identical payload leave
exactly one stored row for the computed slug, the second call adds no row,
and that row's payload-determined fields are the ones the second (latest)
call computed. -/
theorem c2_upsert_idempotent (marked : String → String)
    (data : CreatePostData) (id1 id2 : String) (now1 now2 : Nat)
    (store : List Post)
    (huniq : store.countP (fun r => decide (r.slug = slugOf data)) ≤ 1) :
    let s1 := (upsertPostBySlug marked data id1 now1 store).2
    let s2 := (upsertPostBySlug marked data id2 now2 s1).2
    s2.length = s1.length ∧
    s2.countP (fun r => decide (r.slug = slugOf data)) = 1 ∧
    ∃ r, s2.find? (fun r2 => decide (r2.slug = slugOf data)) = some r ∧
      r.title = data.title ∧
      r.slug = slugOf data ∧
      r.tags = stringifyTags (data.tags.getD []) ∧
      r.author = jsOr data.author "Teacher AI Academy" ∧
      r.publishedAt = data.publishedAt.getD now2 ∧
      r.status = data.status.getD PostStatus.PUBLISHED ∧
      r.contentMarkdown =
        jsOr (processContent marked data.contentMarkdown data.contentHtml).1 "" ∧
      r.updatedAt = now2 := by
  intro s1 s2
  have h1count : s1.countP (fun r => decide (r.slug = slugOf data)) = 1 :=
    upsert_countP_slug_one marked data id1 now1 store huniq
  obtain ⟨r1, hr1⟩ : ∃ r1,
      s1.find? (fun r => decide (r.slug = slugOf data)) = some r1 := by
    have hpos : 0 < s1.countP (fun r => decide (r.slug = slugOf data)) := by
      omega
    obtain ⟨a, ha, hpa⟩ := List.countP_pos_iff.mp hpos
    exact Option.isSome_iff_exists.mp (List.find?_isSome.mpr ⟨a, ha, hpa⟩)
  have hr1slug : r1.slug = slugOf data := by
    have := List.find?_some hr1
    simpa using this
  have hs2 : s2 = s1.map
      (fun r => if r.slug = slugOf data then upsertUpd marked data now2 r else r) := by
    show (upsertPostBySlug marked data id2 now2 s1).2 = _
    simp [upsertPostBySlug, hr1]
  refine ⟨by rw [hs2]; exact List.length_map _ _, ?_, ?_⟩
  · rw [hs2, List.countP_map, upsert_comp_slug, h1count]
  · refine ⟨upsertUpd marked data now2 r1, ?_, rfl, ?_, rfl, rfl, rfl, rfl,
      rfl, rfl⟩
    · rw [hs2, List.find?_map, upsert_comp_slug, hr1]
      simp [hr1slug]
    · rw [upsertUpd_slug, hr1slug]

/-- C2 (witness): the double upsert of a concrete payload over the empty
store. -/
theorem c2_upsert_idempotent_witness :
    ([] : List Post).countP
      (fun r => decide (r.slug =
        slugOf { title := "Hello World", tags := some ["a", "b"] })) ≤ 1 ∧
    (let s1 := (upsertPostBySlug (fun s => s)
        { title := "Hello World", tags := some ["a", "b"] } "id1" 10 []).2
     let s2 := (upsertPostBySlug (fun s => s)
        { title := "Hello World", tags := some ["a", "b"] } "id2" 20 s1).2
     s2.length = s1.length ∧
     s2.countP (fun r => decide (r.slug =
        slugOf { title := "Hello World", tags := some ["a", "b"] })) = 1 ∧
     ∃ r, s2.find? (fun r2 => decide (r2.slug =
          slugOf { title := "Hello World", tags := some ["a", "b"] })) = some r ∧
       r.title = "Hello World" ∧
       r.slug = slugOf { title := "Hello World", tags := some ["a", "b"] } ∧
       r.tags = stringifyTags ["a", "b"] ∧
       r.author = "Teacher AI Academy" ∧
       r.publishedAt = 20 ∧
       r.status = PostStatus.PUBLISHED ∧
       r.contentMarkdown = "" ∧
       r.updatedAt = 20) := by
  exact ⟨by decide,
    c2_upsert_idempotent (fun s => s)
      { title := "Hello World", tags := some ["a", "b"] } "id1" "id2" 10 20 []
      (by decide)⟩

/-- C10 (confirmed): when the computed slug matches an existing post, the
upsert takes the update arm: the returned post keeps the existing row's
`id`, `slug` and `createdAt` while the payload fields are overwritten; no
row's `id` or `slug` anywhere in the store changes, no row is added or
removed, and every row with a different slug is left entirely unchanged. -/
theorem c10_upsert_frame (marked : String → String) (data : CreatePostData)
    (newId : String) (now : Nat) (store : List Post) (r0 : Post)
    (hfind : store.find? (fun r => decide (r.slug = slugOf data)) = some r0) :
    let res := upsertPostBySlug marked data newId now store
    res.1.id = r0.id ∧
    res.1.slug = r0.slug ∧
    res.1.createdAt = r0.createdAt ∧
    res.1.title = data.title ∧
    res.1.publishedAt = data.publishedAt.getD now ∧
    res.1.status = data.status.getD PostStatus.PUBLISHED ∧
    res.2.map (fun r => r.id) = store.map (fun r => r.id) ∧
    res.2.map (fun r => r.slug) = store.map (fun r => r.slug) ∧
    res.2.length = store.length ∧
    (∀ r ∈ store, r.slug ≠ slugOf data → r ∈ res.2) := by
  intro res
  have hres : res = (toPostWithTags (upsertUpd marked data now r0),
      store.map (fun r =>
        if r.slug = slugOf data then upsertUpd marked data now r else r)) := by
    show upsertPostBySlug marked data newId now store = _
    simp [upsertPostBySlug, hfind]
  rw [hres]
  refine ⟨rfl, rfl, rfl, rfl, rfl, rfl, ?_, ?_, List.length_map _ _, ?_⟩
  · rw [List.map_map]
    apply List.map_congr_left
    intro a _
    by_cases h : a.slug = slugOf data <;>
      simp [Function.comp, h, upsertUpd_id]
  · rw [List.map_map]
    apply List.map_congr_left
    intro a _
    by_cases h : a.slug = slugOf data <;>
      simp [Function.comp, h, upsertUpd_slug]
  · intro r hr hneq
    have heq : (if r.slug = slugOf data then upsertUpd marked data now r
        else r) = r := by simp [hneq]
    have hm := List.mem_map_of_mem
      (fun r => if r.slug = slugOf data then upsertUpd marked data now r else r) hr
    simpa [heq] using hm

/-- A pre-existing row whose slug an upsert payload hits. -/
def welcomeRow : Post :=
  { id := "w0", title := "Old", slug := "welcome", summary := none,
    contentMarkdown := "old", contentHtml := none, imageUrl := none,
    tags := "[]", sourceUrl := none, author := "Old Author", publishedAt := 1,
    status := PostStatus.DRAFT, createdAt := 5, updatedAt := 1 }

/-- A second row an upsert for `"welcome"` must not touch. -/
def otherRow : Post :=
  { id := "w1", title := "Other", slug := "other", summary := none,
    contentMarkdown := "", contentHtml := none, imageUrl := none,
    tags := "[]", sourceUrl := none, author := "A", publishedAt := 2,
    status := PostStatus.PUBLISHED, createdAt := 6, updatedAt := 2 }

/-- C10 (witness): an upsert whose payload slug `"welcome"` matches
`welcomeRow` in a two-row store. -/
theorem c10_upsert_frame_witness :
    ([welcomeRow, otherRow].find? (fun r =>
      decide (r.slug = slugOf { title := "T2", slug := some "welcome" })) =
      some welcomeRow) ∧
    (upsertPostBySlug (fun s => s) { title := "T2", slug := some "welcome" }
      "idN" 30 [welcomeRow, otherRow]).1.id = "w0" ∧
    (upsertPostBySlug (fun s => s) { title := "T2", slug := some "welcome" }
      "idN" 30 [welcomeRow, otherRow]).1.slug = "welcome" ∧
    (upsertPostBySlug (fun s => s) { title := "T2", slug := some "welcome" }
      "idN" 30 [welcomeRow, otherRow]).1.createdAt = 5 ∧
    (upsertPostBySlug (fun s => s) { title := "T2", slug := some "welcome" }
      "idN" 30 [welcomeRow, otherRow]).1.title = "T2" ∧
    (upsertPostBySlug (fun s => s) { title := "T2", slug := some "welcome" }
      "idN" 30 [welcomeRow, otherRow]).2.map (fun r => r.id) = ["w0", "w1"] ∧
    (upsertPostBySlug (fun s => s) { title := "T2", slug := some "welcome" }
      "idN" 30 [welcomeRow, otherRow]).2.map (fun r => r.slug) =
      ["welcome", "other"] ∧
    otherRow ∈ (upsertPostBySlug (fun s => s)
      { title := "T2", slug := some "welcome" } "idN" 30
      [welcomeRow, otherRow]).2 := by
  have happ := c10_upsert_frame (fun s => s)
    { title := "T2", slug := some "welcome" } "idN" 30
    [welcomeRow, otherRow] welcomeRow (by rfl)
  obtain ⟨h1, h2, h3, h4, _, _, h7, h8, _, hframe⟩ := happ
  refine ⟨by rfl, h1, h2, h3, h4, ?_, ?_, ?_⟩
  · rw [h7]; rfl
  · rw [h8]; rfl
  · exact hframe otherRow (by simp) (by decide)
